import Mathlib

/-!
Shallow embedding of ts-strictify (src/main.ts).

The program discovers the files changed since the current branch forked from a
target branch, subtracts files changed on configured ignore branches, runs the
TypeScript compiler once over the project, and correlates its output lines back
to the changed files by substring containment.

External collaborators (git queries via execa and simple-git, and the tsc
invocation) are modelled as an environment record of oracle responses; every
catch-to-default in the source becomes a match on an Option response.  The
lifecycle callbacks (onFoundSinceRevision, onFoundChangedFiles, onCheckFile)
become an event trace in the output; console logging is out of scope.  A
JavaScript exception escaping the entrypoint is modelled as result none.
-/

namespace TsStrictify

/-- Character-list version of the question whether pat is a prefix of the
second list, used to model JavaScript string search. -/
def charsStartWith : List Char → List Char → Bool
  | [], _ => true
  | _ :: _, [] => false
  | p :: ps, c :: cs => p == c && charsStartWith ps cs

/-- pat occurs as a contiguous run somewhere in the character list, as in
JavaScript String.prototype.includes. -/
def charsContain (pat : List Char) : List Char → Bool
  | [] => charsStartWith pat []
  | c :: cs => charsStartWith pat (c :: cs) || charsContain pat cs

/-- JavaScript line.includes(target). -/
def jsIncludes (line target : String) : Bool :=
  charsContain target.data line.data

/-- s ends with pat, modelling the end-anchored part of the regular
expression test in the source. -/
def strEndsWith (s pat : String) : Bool :=
  charsStartWith pat.data.reverse s.data.reverse

/-- Source: isSupportedExtension = (fileName) => Boolean(fileName.match(regex
dot-ts-optional-x-end)): the file name ends in ".ts" or ".tsx". -/
def isSupportedExtension (fileName : String) : Bool :=
  strEndsWith fileName ".ts" || strEndsWith fileName ".tsx"

/-- JavaScript array.includes(x) on a list of strings. -/
def jsArrayIncludes : List String → String → Bool
  | [], _ => false
  | y :: ys, x => y == x || jsArrayIncludes ys x

/-- Helper for jsSetDedup: keep the first occurrence of each element, skipping
elements already seen, as iteration over a JavaScript Set built from an array. -/
def dedupAcc (seen : List String) : List String → List String
  | [] => []
  | x :: xs =>
    if jsArrayIncludes seen x then dedupAcc seen xs
    else x :: dedupAcc (x :: seen) xs

/-- JavaScript Array.from(new Set(l)): first occurrences, in order. -/
def jsSetDedup (l : List String) : List String := dedupAcc [] l

/-- JavaScript Array.prototype.reduce WITHOUT an initial accumulator: throws
(returns none) on the empty array, otherwise folds from the first element. -/
def reduceNoSeed (f : α → α → α) : List α → Option α
  | [] => none
  | x :: xs => some (xs.foldl f x)

/-- Split a character list at newline characters. -/
def splitNlChars : List Char → List (List Char)
  | [] => [[]]
  | c :: cs =>
    if c == '\n' then [] :: splitNlChars cs
    else
      match splitNlChars cs with
      | [] => [[c]]
      | r :: rs => (c :: r) :: rs

/-- JavaScript allText.split with the newline separator. -/
def jsSplitNewline (s : String) : List String :=
  (splitNlChars s.data).map String.mk

/-- Response of the simple-git status query: created, modified and not yet
tracked files. -/
structure GitStatus where
  created : List String
  modified : List String
  not_added : List String

/-- Outcome of the one tsc child-process invocation.  success is a normal
exit; failure is an abnormal exit carrying the captured combined output when
the process produced any (the error object field named all), and carrying
none when the invocation failed for an unrelated reason such as a missing
binary, in which case reading .split of the undefined field throws. -/
inductive TscResult where
  | success : TscResult
  | failure : Option String → TscResult
deriving DecidableEq

/-- Oracle responses of the external collaborators for one run: git merge-base
fork-point (none models the rejected promise caught to undefined), git status
(none models a failed query), git diffSummary keyed by the two revisions
(none models a failed query), and the tsc invocation. -/
structure Env where
  mergeBase : String → String → Option String
  status : Option GitStatus
  diffSummary : String → String → Option (List String)
  tsc : TscResult

/-- Caller-supplied arguments the core logic depends on. -/
structure Args where
  targetBranch : String
  ignoreFilesChangedOnBranch : List String

/-- Source: StrictifyResult with fields success and errors. -/
structure StrictifyResult where
  success : Bool
  errors : Nat
deriving DecidableEq

/-- One callback notification of the run, in emission order. -/
inductive Event where
  | foundSinceRevision : Option String → Event
  | foundChangedFiles : List String → Event
  | checkFile : String → Bool → Event
deriving DecidableEq

/-- Observable outcome of one strictify run: the callback trace, how many
times tsc was spawned, and the returned value (none when a JavaScript
exception escapes the entrypoint). -/
structure StrictifyOut where
  events : List Event
  tscInvocations : Nat
  result : Option StrictifyResult
deriving DecidableEq

/-- Source: execa git merge-base fork-point of targetBranch and branch, with
stdout on success and undefined on any rejection. -/
def findCommitAtWhichBranchForkedFromTargetBranch
    (env : Env) (branch targetBranch : String) : Option String :=
  env.mergeBase targetBranch branch

/-- Source: the same query with HEAD as the branch. -/
def findCommitAtWhichTheCurrentBranchForkedFromTargetBranch
    (env : Env) (targetBranch : String) : Option String :=
  findCommitAtWhichBranchForkedFromTargetBranch env "HEAD" targetBranch

/-- Source: simpleGit status, concatenating created, modified and not_added;
a failed query is caught, logged and degraded to the empty list. -/
def findModifiedAndUntrackedFiles (env : Env) : List String :=
  match env.status with
  | some s => s.created ++ s.modified ++ s.not_added
  | none => []

/-- Source: early return of the empty list when baseRevision is undefined,
otherwise simpleGit diffSummary over the two revisions, its files gathered by
a seeded reduce; a failed query degrades to the empty list.  The second
component records which diff queries were actually issued. -/
def findFilesFromDiffToRevision
    (env : Env) (baseRevision : Option String) (childRevision : String) :
    List String × List (String × String) :=
  match baseRevision with
  | none => ([], [])
  | some base =>
    match env.diffSummary base childRevision with
    | some files => (files, [(base, childRevision)])
    | none => ([], [(base, childRevision)])

/-- Source: try await execa tsc; normal exit yields the empty line list,
abnormal exit yields the captured combined output split at newlines.  When
the caught error carries no combined output the split call itself throws,
modelled as none. -/
def getTypeScriptCompileOutput (tsc : TscResult) : Option (List String) :=
  match tsc with
  | TscResult.success => some []
  | TscResult.failure (some all) => some (jsSplitNewline all)
  | TscResult.failure none => none

/-- The fork point of the current branch from the target branch. -/
def forkOf (env : Env) (targetBranch : String) : Option String :=
  findCommitAtWhichTheCurrentBranchForkedFromTargetBranch env targetBranch

/-- Source: the excludedFiles computation — per ignore branch, the files from
the diff between that branch and its own fork point from the target branch,
then a reduce WITHOUT an initial accumulator concatenating the per-branch
lists.  none models the TypeError the seedless reduce throws on an empty
ignore-branch list. -/
def excludedFilesOpt (env : Env) (args : Args) : Option (List String) :=
  reduceNoSeed (fun accumulator currentValue => accumulator ++ currentValue)
    (args.ignoreFilesChangedOnBranch.map fun branchWithChangesToIgnore =>
      (findFilesFromDiffToRevision env
        (findCommitAtWhichBranchForkedFromTargetBranch env
          branchWithChangesToIgnore args.targetBranch)
        branchWithChangesToIgnore).1)

/-- Source: changedFiles — the deduplicated union of the working-tree changes
and the files of the diff from the fork point to HEAD, filtered by the
supported-extension predicate. -/
def changedFilesOf (env : Env) (targetBranch : String) : List String :=
  (jsSetDedup
    (findModifiedAndUntrackedFiles env ++
      (findFilesFromDiffToRevision env (forkOf env targetBranch) "HEAD").1)).filter
    isSupportedExtension

/-- Source: includedChangedFiles — the changed files whose path the excluded
list does not contain. -/
def includedOf (changedFiles excludedFiles : List String) : List String :=
  changedFiles.filter fun f => !(jsArrayIncludes excludedFiles f)

/-- Per-file inner loop of the error-count reduce: walk the tsc output lines
carrying (events so far, running total across files, matches for this file);
the first matching line emits onCheckFile(file, true). -/
def tscLinesFold (fileName : String) :
    List String → List Event × Nat × Nat → List Event × Nat × Nat
  | [], st => st
  | line :: rest, (evs, tot, ec) =>
    if jsIncludes line fileName then
      tscLinesFold fileName rest
        (evs ++ (if ec == 0 then [Event.checkFile fileName true] else []),
         tot + 1, ec + 1)
    else
      tscLinesFold fileName rest (evs, tot, ec)

/-- Outer reduce of the correlation stage over the included changed files,
seeded with 0; a file with no matching line gets onCheckFile(file, false)
after its inner loop. -/
def correlateFiles (tscOut : List String) :
    List String → List Event × Nat → List Event × Nat
  | [], st => st
  | fileName :: rest, (evs, total) =>
    match tscLinesFold fileName tscOut (evs, total, 0) with
    | (evs2, tot2, ec) =>
      correlateFiles tscOut rest
        (evs2 ++ (if ec == 0 then [Event.checkFile fileName false] else []), tot2)

/-- Number of tsc output lines that contain the file name as a substring. -/
def countFor (fileName : String) (lines : List String) : Nat :=
  lines.countP fun line => jsIncludes line fileName

/-- Sum of countFor over a list of files. -/
def sumCountFor (files tscOut : List String) : Nat :=
  (files.map fun f => countFor f tscOut).sum

/-- Source: the exported strictify entrypoint, sequencing fork-point lookup,
exclusion computation, change-set computation, the empty-change-set short
circuit, exclusion subtraction, the single tsc invocation and the
correlation reduce. -/
def strictify (env : Env) (args : Args) : StrictifyOut :=
  let commit := forkOf env args.targetBranch
  match excludedFilesOpt env args with
  | none => ⟨[Event.foundSinceRevision commit], 0, none⟩
  | some excludedFiles =>
    let changedFiles := changedFilesOf env args.targetBranch
    let evs := [Event.foundSinceRevision commit, Event.foundChangedFiles changedFiles]
    if changedFiles.length == 0 then ⟨evs, 0, some ⟨true, 0⟩⟩
    else
      match getTypeScriptCompileOutput env.tsc with
      | none => ⟨evs, 1, none⟩
      | some tscOut =>
        match correlateFiles tscOut (includedOf changedFiles excludedFiles) (evs, 0) with
        | (evs2, errorCount) => ⟨evs2, 1, some ⟨errorCount == 0, errorCount⟩⟩

/-- Recognizes a checkFile event for the given file, whatever its boolean. -/
def isCheckFileOf (f : String) : Event → Bool
  | Event.checkFile g _ => g == f
  | _ => false

/-! Helper lemmas. -/

theorem jsArrayIncludes_iff (l : List String) (x : String) :
    jsArrayIncludes l x = true ↔ x ∈ l := by
  induction l with
  | nil => simp [jsArrayIncludes]
  | cons y ys ih =>
    simp only [jsArrayIncludes, Bool.or_eq_true, beq_iff_eq, ih, List.mem_cons]
    constructor
    · rintro (h | h)
      · exact Or.inl h.symm
      · exact Or.inr h
    · rintro (h | h)
      · exact Or.inl h.symm
      · exact Or.inr h

theorem jsArrayIncludes_eq_false_iff (l : List String) (x : String) :
    jsArrayIncludes l x = false ↔ x ∉ l := by
  rw [← Bool.not_eq_true, not_iff_not]
  exact jsArrayIncludes_iff l x

theorem dedupAcc_mem (y : String) :
    ∀ (l seen : List String), y ∈ dedupAcc seen l ↔ (y ∈ l ∧ y ∉ seen) := by
  intro l
  induction l with
  | nil => intro seen; simp [dedupAcc]
  | cons x xs ih =>
    intro seen
    cases hx : jsArrayIncludes seen x with
    | true =>
      have hxs : x ∈ seen := (jsArrayIncludes_iff seen x).1 hx
      simp only [dedupAcc, hx, if_true, ih, List.mem_cons]
      constructor
      · rintro ⟨h1, h2⟩; exact ⟨Or.inr h1, h2⟩
      · rintro ⟨h1 | h1, h2⟩
        · exact absurd (h1 ▸ hxs) h2
        · exact ⟨h1, h2⟩
    | false =>
      have hxs : x ∉ seen := (jsArrayIncludes_eq_false_iff seen x).1 hx
      simp only [dedupAcc, hx, Bool.false_eq_true, if_false, List.mem_cons, ih]
      constructor
      · rintro (h | ⟨h1, h2⟩)
        · exact ⟨Or.inl h, h ▸ hxs⟩
        · exact ⟨Or.inr h1, fun hc => h2 (Or.inr hc)⟩
      · rintro ⟨h1 | h1, h2⟩
        · exact Or.inl h1
        · by_cases hyx : y = x
          · exact Or.inl hyx
          · exact Or.inr ⟨h1, fun hc => hc.elim hyx h2⟩

theorem dedupAcc_nodup :
    ∀ (l seen : List String), (dedupAcc seen l).Nodup := by
  intro l
  induction l with
  | nil => intro seen; simp [dedupAcc]
  | cons x xs ih =>
    intro seen
    cases hx : jsArrayIncludes seen x with
    | true => simpa [dedupAcc, hx] using ih seen
    | false =>
      simp only [dedupAcc, hx, Bool.false_eq_true, if_false, List.nodup_cons]
      refine ⟨fun hc => ?_, ih (x :: seen)⟩
      exact ((dedupAcc_mem x xs (x :: seen)).1 hc).2 (List.mem_cons_self x seen)

theorem jsSetDedup_mem (l : List String) (y : String) :
    y ∈ jsSetDedup l ↔ y ∈ l := by
  simpa [jsSetDedup] using dedupAcc_mem y l []

theorem jsSetDedup_nodup (l : List String) : (jsSetDedup l).Nodup :=
  dedupAcc_nodup l []

theorem includedOf_mem (changed exc : List String) (f : String) :
    f ∈ includedOf changed exc ↔ (f ∈ changed ∧ f ∉ exc) := by
  simp only [includedOf, List.mem_filter, Bool.not_eq_true']
  rw [jsArrayIncludes_eq_false_iff]

theorem includedOf_eq_nil (changed exc : List String)
    (h : ∀ f ∈ changed, f ∈ exc) : includedOf changed exc = [] := by
  rw [includedOf, List.filter_eq_nil_iff]
  intro f hf
  simp only [Bool.not_eq_true', Bool.not_eq_false]
  exact (jsArrayIncludes_iff exc f).2 (h f hf)

theorem changedFilesOf_mem (env : Env) (targetBranch : String) (f : String) :
    f ∈ changedFilesOf env targetBranch ↔
      ((f ∈ findModifiedAndUntrackedFiles env ∨
        f ∈ (findFilesFromDiffToRevision env (forkOf env targetBranch) "HEAD").1) ∧
       isSupportedExtension f = true) := by
  simp only [changedFilesOf, List.mem_filter, jsSetDedup_mem, List.mem_append]

theorem changedFilesOf_nodup (env : Env) (targetBranch : String) :
    (changedFilesOf env targetBranch).Nodup :=
  (jsSetDedup_nodup _).filter _

theorem length_beq_zero_eq_false {α : Type} {l : List α} (h : l ≠ []) :
    (l.length == 0) = false := by
  cases l with
  | nil => exact absurd rfl h
  | cons x xs => rfl

theorem tscLinesFold_eq (fileName : String) :
    ∀ (lines : List String) (evs : List Event) (tot ec : Nat),
      tscLinesFold fileName lines (evs, tot, ec) =
        (evs ++ (if ec = 0 ∧ countFor fileName lines ≠ 0
                  then [Event.checkFile fileName true] else []),
         tot + countFor fileName lines, ec + countFor fileName lines) := by
  intro lines
  induction lines with
  | nil => intro evs tot ec; simp [tscLinesFold, countFor]
  | cons line rest ih =>
    intro evs tot ec
    by_cases hm : jsIncludes line fileName = true
    · have hc : countFor fileName (line :: rest) = countFor fileName rest + 1 := by
        simp [countFor, List.countP_cons, hm]
      cases ec with
      | zero =>
        simp only [tscLinesFold, hm, if_true, Nat.zero_add]
        rw [ih, hc]
        simp only [Prod.mk.injEq]
        refine ⟨?_, by omega, by omega⟩
        simp
      | succ k =>
        simp only [tscLinesFold, hm, if_true]
        rw [ih, hc]
        have hk : ((k + 1 : Nat) == 0) = false := rfl
        simp only [hk, Bool.false_eq_true, if_false, List.append_nil, Prod.mk.injEq]
        refine ⟨?_, by omega, by omega⟩
        simp
    · have hmf : jsIncludes line fileName = false := Bool.eq_false_iff.2 hm
      have hc : countFor fileName (line :: rest) = countFor fileName rest := by
        simp [countFor, List.countP_cons, hmf]
      simp only [tscLinesFold, hmf, Bool.false_eq_true, if_false]
      rw [ih, hc]

theorem correlateFiles_eq (tscOut : List String) :
    ∀ (files : List String) (evs : List Event) (total : Nat),
      correlateFiles tscOut files (evs, total) =
        (evs ++ files.map (fun f => Event.checkFile f (countFor f tscOut != 0)),
         total + sumCountFor files tscOut) := by
  intro files
  induction files with
  | nil => intro evs total; simp [correlateFiles, sumCountFor]
  | cons f fs ih =>
    intro evs total
    simp only [correlateFiles]
    rw [tscLinesFold_eq]
    by_cases hc : countFor f tscOut = 0
    · have hb : (countFor f tscOut != 0) = false := by simp [hc]
      simp only [hc, and_false, ne_eq, not_true_eq_false, if_false, List.append_nil,
        Nat.add_zero, Nat.zero_add, beq_self_eq_true, if_true]
      rw [ih]
      simp only [Prod.mk.injEq]
      refine ⟨?_, ?_⟩
      · simp [hb, List.append_assoc]
      · simp [sumCountFor, hc]
    · have hb : (countFor f tscOut != 0) = true := by simp [hc]
      have hb0 : (countFor f tscOut == 0) = false := by simp [hc]
      simp only [true_and, ne_eq, hc, not_false_eq_true, if_true, Nat.zero_add, hb0,
        Bool.false_eq_true, if_false, List.append_nil]
      rw [ih]
      simp only [Prod.mk.injEq]
      refine ⟨?_, ?_⟩
      · simp [hb, List.append_assoc]
      · simp [sumCountFor]
        omega

theorem filter_beq_eq_nil (f : String) (l : List String) (h : f ∉ l) :
    l.filter (fun g => g == f) = [] := by
  induction l with
  | nil => rfl
  | cons x xs ih =>
    have hx : (x == f) = false := by
      refine beq_eq_false_iff_ne.2 fun he => ?_
      exact h (List.mem_cons.2 (Or.inl he.symm))
    have h2 : f ∉ xs := fun hm => h (List.mem_cons_of_mem _ hm)
    simp [List.filter_cons, hx, ih h2]

theorem nodup_filter_beq_singleton (f : String) :
    ∀ l : List String, l.Nodup → f ∈ l → l.filter (fun g => g == f) = [f] := by
  intro l
  induction l with
  | nil => intro _ hmem; cases hmem
  | cons x xs ih =>
    intro hnd hmem
    rcases List.mem_cons.1 hmem with rfl | hmem2
    · have hnotin : f ∉ xs := (List.nodup_cons.1 hnd).1
      simp [List.filter_cons, filter_beq_eq_nil f xs hnotin]
    · have hx : (x == f) = false := by
        refine beq_eq_false_iff_ne.2 fun he => ?_
        exact (List.nodup_cons.1 hnd).1 (he ▸ hmem2)
      simp only [List.filter_cons, hx, Bool.false_eq_true, if_false]
      exact ih (List.nodup_cons.1 hnd).2 hmem2

theorem filter_isCheckFileOf_map (f : String) (tscOut : List String) :
    ∀ l : List String,
      (l.map (fun g => Event.checkFile g (countFor g tscOut != 0))).filter
          (isCheckFileOf f) =
        (l.filter (fun g => g == f)).map
          (fun g => Event.checkFile g (countFor g tscOut != 0)) := by
  intro l
  induction l with
  | nil => rfl
  | cons x xs ih =>
    cases hx : (x == f) with
    | true => simp [List.filter_cons, isCheckFileOf, hx, ih]
    | false => simp [List.filter_cons, isCheckFileOf, hx, ih]

theorem reduceNoSeed_isSome {α : Type} (f : α → α → α) (l : List α) (h : l ≠ []) :
    ∃ x, reduceNoSeed f l = some x := by
  cases l with
  | nil => exact absurd rfl h
  | cons x xs => exact ⟨xs.foldl f x, rfl⟩

theorem excludedFilesOpt_isSome (env : Env) (args : Args)
    (h : args.ignoreFilesChangedOnBranch ≠ []) :
    ∃ exc, excludedFilesOpt env args = some exc := by
  refine reduceNoSeed_isSome _ _ fun hm => h ?_
  exact List.map_eq_nil_iff.1 hm

theorem strictify_of_excluded_none (env : Env) (args : Args)
    (h : excludedFilesOpt env args = none) :
    strictify env args =
      ⟨[Event.foundSinceRevision (forkOf env args.targetBranch)], 0, none⟩ := by
  simp only [strictify, h]

theorem strictify_of_changed_nil (env : Env) (args : Args) (exc : List String)
    (hexc : excludedFilesOpt env args = some exc)
    (hch : changedFilesOf env args.targetBranch = []) :
    strictify env args =
      ⟨[Event.foundSinceRevision (forkOf env args.targetBranch),
        Event.foundChangedFiles (changedFilesOf env args.targetBranch)],
       0, some ⟨true, 0⟩⟩ := by
  simp only [strictify, hexc, hch, List.length_nil, beq_self_eq_true, if_true]

theorem strictify_of_tsc_hard (env : Env) (args : Args) (exc : List String)
    (hexc : excludedFilesOpt env args = some exc)
    (hch : changedFilesOf env args.targetBranch ≠ [])
    (htsc : getTypeScriptCompileOutput env.tsc = none) :
    strictify env args =
      ⟨[Event.foundSinceRevision (forkOf env args.targetBranch),
        Event.foundChangedFiles (changedFilesOf env args.targetBranch)],
       1, none⟩ := by
  have hlen := length_beq_zero_eq_false hch
  simp only [strictify, hexc, hlen, Bool.false_eq_true, if_false, htsc]

theorem strictify_of_run (env : Env) (args : Args) (exc tscOut : List String)
    (hexc : excludedFilesOpt env args = some exc)
    (hch : changedFilesOf env args.targetBranch ≠ [])
    (htsc : getTypeScriptCompileOutput env.tsc = some tscOut) :
    strictify env args =
      ⟨[Event.foundSinceRevision (forkOf env args.targetBranch),
        Event.foundChangedFiles (changedFilesOf env args.targetBranch)] ++
          (includedOf (changedFilesOf env args.targetBranch) exc).map
            (fun f => Event.checkFile f (countFor f tscOut != 0)),
       1,
       some ⟨sumCountFor (includedOf (changedFilesOf env args.targetBranch) exc) tscOut == 0,
             sumCountFor (includedOf (changedFilesOf env args.targetBranch) exc) tscOut⟩⟩ := by
  have hlen := length_beq_zero_eq_false hch
  simp only [strictify, hexc, hlen, Bool.false_eq_true, if_false, htsc]
  rw [correlateFiles_eq]
  simp only [Nat.zero_add]

/-! Concrete environments used to evaluate the entrypoint on small runs. -/

/-- A working tree with one created file. -/
def gsApp : GitStatus := ⟨["app.ts"], [], []⟩

/-- Arguments with one ignore branch. -/
def argsA : Args := ⟨"master", ["featureBranch"]⟩

/-- Arguments with an empty ignore-branch list. -/
def argsE : Args := ⟨"master", []⟩

/-- Arguments with one ignore branch, used with the empty working tree. -/
def argsIg : Args := ⟨"master", ["dev"]⟩

/-- No fork points, one created file app.ts, tsc exits abnormally with one
diagnostic line mentioning app.ts. -/
def envDiag : Env :=
  ⟨fun _ _ => none, some gsApp, fun _ _ => none,
   TscResult.failure (some "app.ts(3,5): error TS2322")⟩

/-- Same run but the tsc invocation fails without captured output. -/
def envHard : Env :=
  ⟨fun _ _ => none, some gsApp, fun _ _ => none, TscResult.failure none⟩

/-- The ignore branch has a fork point and its diff covers app.ts, so the one
changed file is excluded; tsc exits normally. -/
def envOk : Env :=
  ⟨fun _ b => if b == "HEAD" then none else some "deadbeef", some gsApp,
   fun _ _ => some ["app.ts"], TscResult.success⟩

/-- Same exclusion situation but the tsc invocation fails without captured
output. -/
def envC10 : Env :=
  ⟨fun _ b => if b == "HEAD" then none else some "deadbeef", some gsApp,
   fun _ _ => some ["app.ts"], TscResult.failure none⟩

/-- Clean working tree, no fork point: the change set is empty. -/
def envEmpty : Env :=
  ⟨fun _ _ => none, some ⟨[], [], []⟩, fun _ _ => none, TscResult.success⟩

example : changedFilesOf envDiag "master" = ["app.ts"] := by decide
example : excludedFilesOpt envDiag argsA = some [] := by decide
example : (strictify envDiag argsA).result = some ⟨false, 1⟩ := by decide
example : excludedFilesOpt envOk argsA = some ["app.ts"] := by decide
example : strictify envOk argsA =
    ⟨[Event.foundSinceRevision none, Event.foundChangedFiles ["app.ts"]],
     1, some ⟨true, 0⟩⟩ := by decide
example : (strictify envC10 argsA).result = none := by decide
example : (strictify envEmpty argsE).result = none := by decide
example : (strictify envEmpty argsIg).result = some ⟨true, 0⟩ := by decide

example : isSupportedExtension "app.ts" = true := by decide
example : isSupportedExtension "app.tsx" = true := by decide
example : isSupportedExtension "app.mts" = false := by decide
example : isSupportedExtension "app.ts.bak" = false := by decide
example : jsIncludes "app.ts(3,5): error TS2322" "app.ts" = true := by decide
example : jsSplitNewline "a\nb" = ["a", "b"] := by decide
example : jsSplitNewline "" = [""] := by decide
example : jsSetDedup ["a", "b", "a"] = ["a", "b"] := by decide
example : reduceNoSeed (fun a b => a + b) ([] : List Nat) = none := by decide

/-! Claim theorems. -/

/-- Claim C1: the claim says that with an empty ignoreBranches list the
operation never throws and the exclusion set is the empty set.  The code
instead folds the per-branch lists with a seedless reduce, which throws on
the empty list, so every run with an empty ignore-branch list aborts before
ever computing a change set: the exclusion computation yields no value and
the entrypoint returns no result. -/
theorem c1_empty_ignore_list_throws :
    ∀ (env : Env) (targetBranch : String),
      excludedFilesOpt env ⟨targetBranch, []⟩ = none ∧
      (strictify env ⟨targetBranch, []⟩).result = none := by
  intro env targetBranch
  exact ⟨rfl, rfl⟩

/-- Claim C2: normal tsc termination yields zero diagnostic lines; abnormal
termination's captured combined output split at newlines is the diagnostic
sequence; an invocation failure without captured output is a hard failure,
and whenever the compiler was actually invoked in a run, such a failure
leaves the whole operation without a result. -/
theorem c2_compile_outcome_classification :
    (getTypeScriptCompileOutput TscResult.success = some []) ∧
    (∀ all, getTypeScriptCompileOutput (TscResult.failure (some all)) =
      some (jsSplitNewline all)) ∧
    (getTypeScriptCompileOutput (TscResult.failure none) = none) ∧
    (∀ (env : Env) (args : Args), env.tsc = TscResult.failure none →
      (strictify env args).tscInvocations = 0 ∨ (strictify env args).result = none) := by
  refine ⟨rfl, fun all => rfl, rfl, ?_⟩
  intro env args h
  cases hexc : excludedFilesOpt env args with
  | none => left; rw [strictify_of_excluded_none env args hexc]
  | some exc =>
    by_cases hch : changedFilesOf env args.targetBranch = []
    · left; rw [strictify_of_changed_nil env args exc hexc hch]
    · right
      rw [strictify_of_tsc_hard env args exc hexc hch (by rw [h]; rfl)]

/-- Witness for C2 at a concrete run that reaches the compiler and finds its
invocation failing without captured output. -/
theorem c2_witness :
    envHard.tsc = TscResult.failure none ∧
      ((strictify envHard argsA).tscInvocations = 0 ∨
       (strictify envHard argsA).result = none) :=
  ⟨rfl, c2_compile_outcome_classification.2.2.2 envHard argsA rfl⟩

/-- Claim C3: in every run that reaches the correlation stage, the returned
errors field equals the sum over the included changed files of the number of
tsc output lines containing that file's path as a substring; only included
files contribute. -/
theorem c3_errorCount_is_sum_of_countFor (env : Env) (args : Args)
    (exc tscOut : List String)
    (hexc : excludedFilesOpt env args = some exc)
    (htsc : getTypeScriptCompileOutput env.tsc = some tscOut)
    (hch : changedFilesOf env args.targetBranch ≠ []) :
    (strictify env args).result =
      some ⟨sumCountFor (includedOf (changedFilesOf env args.targetBranch) exc) tscOut == 0,
            sumCountFor (includedOf (changedFilesOf env args.targetBranch) exc) tscOut⟩ := by
  rw [strictify_of_run env args exc tscOut hexc hch htsc]

/-- Witness for C3: one changed file, one matching diagnostic line, one
counted error. -/
theorem c3_witness : (strictify envDiag argsA).result = some ⟨false, 1⟩ := by
  have h := c3_errorCount_is_sum_of_countFor envDiag argsA []
    (jsSplitNewline "app.ts(3,5): error TS2322") (by decide) rfl (by decide)
  exact h.trans (by decide)

/-- Claim C4: every run that returns a result has success true exactly when
its error count is zero. -/
theorem c4_success_iff_zero_errors (env : Env) (args : Args) (r : StrictifyResult)
    (h : (strictify env args).result = some r) :
    r.success = true ↔ r.errors = 0 := by
  cases hexc : excludedFilesOpt env args with
  | none =>
    rw [strictify_of_excluded_none env args hexc] at h
    exact absurd h (by simp)
  | some exc =>
    by_cases hch : changedFilesOf env args.targetBranch = []
    · rw [strictify_of_changed_nil env args exc hexc hch] at h
      obtain rfl := Option.some.inj h
      simp
    · cases htsc : getTypeScriptCompileOutput env.tsc with
      | none =>
        rw [strictify_of_tsc_hard env args exc hexc hch htsc] at h
        exact absurd h (by simp)
      | some tscOut =>
        rw [strictify_of_run env args exc tscOut hexc hch htsc] at h
        obtain rfl := Option.some.inj h
        simp

/-- Witness for C4 at a concrete successful run. -/
theorem c4_witness :
    (⟨true, 0⟩ : StrictifyResult).success = true ↔
      (⟨true, 0⟩ : StrictifyResult).errors = 0 :=
  c4_success_iff_zero_errors envOk argsA ⟨true, 0⟩ (by decide)

/-- Claim C5 counterexample: with a clean working tree and no fork point the
extension-filtered change set is empty, yet with an empty ignore-branch list
the run aborts in the exclusion stage instead of terminating with success and
zero errors, so the claim fails as stated at this input. -/
theorem c5_counterexample :
    changedFilesOf envEmpty "master" = [] ∧
    (strictify envEmpty argsE).result ≠ some ⟨true, 0⟩ := by decide

/-- Claim C5 as amended: in every run whose ignore-branch list is non-empty
(so the exclusion fold does not throw), an empty extension-filtered change
set makes the entrypoint terminate immediately with success and zero errors,
without invoking the compiler and without any per-file notification. -/
theorem c5_empty_changeset_short_circuits (env : Env) (args : Args)
    (hig : args.ignoreFilesChangedOnBranch ≠ [])
    (hch : changedFilesOf env args.targetBranch = []) :
    (strictify env args).result = some ⟨true, 0⟩ ∧
    (strictify env args).tscInvocations = 0 ∧
    ∀ f b, Event.checkFile f b ∉ (strictify env args).events := by
  obtain ⟨exc, hexc⟩ := excludedFilesOpt_isSome env args hig
  rw [strictify_of_changed_nil env args exc hexc hch]
  refine ⟨rfl, rfl, ?_⟩
  intro f b hmem
  simp at hmem

/-- Witness for the amended C5 at a concrete run with one ignore branch and
an empty change set. -/
theorem c5_witness : (strictify envEmpty argsIg).result = some ⟨true, 0⟩ :=
  (c5_empty_changeset_short_circuits envEmpty argsIg (by decide) (by decide)).1

/-- Claim C6: diffing against an unknown base revision returns the empty set,
issues no diff query, and raises no error. -/
theorem c6_diff_with_unknown_base :
    ∀ (env : Env) (childRevision : String),
      findFilesFromDiffToRevision env none childRevision = ([], []) := by
  intro env childRevision
  rfl

/-- Claim C7: the included set is the change set minus the exclusion set, so
it is disjoint from the exclusion set, and a file of the exclusion set never
receives a checkFile notification in the run. -/
theorem c7_exclusion_subtraction (env : Env) (args : Args) (exc : List String)
    (hexc : excludedFilesOpt env args = some exc) :
    (∀ f, f ∈ includedOf (changedFilesOf env args.targetBranch) exc ↔
        (f ∈ changedFilesOf env args.targetBranch ∧ f ∉ exc)) ∧
    (∀ f, f ∈ includedOf (changedFilesOf env args.targetBranch) exc → f ∉ exc) ∧
    (∀ f b, f ∈ exc → Event.checkFile f b ∉ (strictify env args).events) := by
  refine ⟨fun f => includedOf_mem _ _ f,
    fun f hf => ((includedOf_mem _ _ f).1 hf).2, ?_⟩
  intro f b hf hmem
  by_cases hch : changedFilesOf env args.targetBranch = []
  · rw [strictify_of_changed_nil env args exc hexc hch] at hmem
    simp at hmem
  · cases htsc : getTypeScriptCompileOutput env.tsc with
    | none =>
      rw [strictify_of_tsc_hard env args exc hexc hch htsc] at hmem
      simp at hmem
    | some tscOut =>
      rw [strictify_of_run env args exc tscOut hexc hch htsc] at hmem
      rcases List.mem_append.1 hmem with h | h
      · simp at h
      · obtain ⟨g, hg, heq⟩ := List.mem_map.1 h
        injection heq with h1 h2
        subst h1
        exact ((includedOf_mem _ exc g).1 hg).2 hf

/-- Witness for C7: the one changed and excluded file gets no checkFile
notification. -/
theorem c7_witness :
    Event.checkFile "app.ts" true ∉ (strictify envOk argsA).events :=
  (c7_exclusion_subtraction envOk argsA ["app.ts"] (by decide)).2.2 "app.ts" true
    (by decide)

/-- Claim C8: every file of the final change set has a TypeScript source
suffix, the set is duplicate-free, and membership is exactly membership in
the union of working-tree changes and committed-diff files that passes the
extension filter. -/
theorem c8_changeset_filtered_nodup (env : Env) (targetBranch : String) :
    (∀ f ∈ changedFilesOf env targetBranch, isSupportedExtension f = true) ∧
    (changedFilesOf env targetBranch).Nodup ∧
    (∀ f, f ∈ changedFilesOf env targetBranch ↔
      ((f ∈ findModifiedAndUntrackedFiles env ∨
        f ∈ (findFilesFromDiffToRevision env (forkOf env targetBranch) "HEAD").1) ∧
       isSupportedExtension f = true)) := by
  refine ⟨?_, changedFilesOf_nodup env targetBranch, changedFilesOf_mem env targetBranch⟩
  intro f hf
  exact ((changedFilesOf_mem env targetBranch f).1 hf).2

/-- Witness for C8 at the concrete run whose change set is the one file
app.ts. -/
theorem c8_witness : isSupportedExtension "app.ts" = true :=
  (c8_changeset_filtered_nodup envDiag "master").1 "app.ts" (by decide)

/-- Claim C9: each included file gets exactly one checkFile notification in
the run, and its boolean says whether the file has at least one matching
diagnostic line; a file with no matching line still gets an explicit false
notification. -/
theorem c9_one_notification_per_file (env : Env) (args : Args)
    (exc tscOut : List String)
    (hexc : excludedFilesOpt env args = some exc)
    (htsc : getTypeScriptCompileOutput env.tsc = some tscOut)
    (hch : changedFilesOf env args.targetBranch ≠ []) :
    ∀ f ∈ includedOf (changedFilesOf env args.targetBranch) exc,
      ((strictify env args).events.filter (isCheckFileOf f)) =
        [Event.checkFile f (countFor f tscOut != 0)] := by
  intro f hf
  have hnd : (includedOf (changedFilesOf env args.targetBranch) exc).Nodup :=
    (changedFilesOf_nodup env args.targetBranch).filter _
  rw [strictify_of_run env args exc tscOut hexc hch htsc]
  rw [List.filter_append, filter_isCheckFileOf_map,
    nodup_filter_beq_singleton f _ hnd hf]
  rfl

/-- Witness for C9 at the concrete run with one included file and one
matching diagnostic line. -/
theorem c9_witness :
    ((strictify envDiag argsA).events.filter (isCheckFileOf "app.ts")) =
      [Event.checkFile "app.ts"
        (countFor "app.ts" (jsSplitNewline "app.ts(3,5): error TS2322") != 0)] :=
  c9_one_notification_per_file envDiag argsA []
    (jsSplitNewline "app.ts(3,5): error TS2322") (by decide) rfl (by decide)
    "app.ts" (by decide)

/-- Claim C10 counterexample: a run whose non-empty change set is wholly
excluded still invokes the compiler once, but when that invocation fails
without captured output the run returns no result at all rather than success
with zero errors, so the claim fails as stated at this input. -/
theorem c10_counterexample :
    excludedFilesOpt envC10 argsA = some ["app.ts"] ∧
    changedFilesOf envC10 "master" = ["app.ts"] ∧
    (strictify envC10 argsA).tscInvocations = 1 ∧
    (strictify envC10 argsA).result ≠ some ⟨true, 0⟩ := by decide

/-- Claim C10 as amended: in every run whose non-empty filtered change set is
wholly contained in the exclusion set and whose compiler invocation ends in
one of the two handled ways (normal exit, or abnormal exit with captured
output), the compiler is invoked exactly once, no checkFile notification is
emitted, and the result is success with zero errors. -/
theorem c10_all_excluded_still_compiles (env : Env) (args : Args)
    (exc tscOut : List String)
    (hexc : excludedFilesOpt env args = some exc)
    (hch : changedFilesOf env args.targetBranch ≠ [])
    (hall : ∀ f ∈ changedFilesOf env args.targetBranch, f ∈ exc)
    (htsc : getTypeScriptCompileOutput env.tsc = some tscOut) :
    (strictify env args).tscInvocations = 1 ∧
    (∀ f b, Event.checkFile f b ∉ (strictify env args).events) ∧
    (strictify env args).result = some ⟨true, 0⟩ := by
  have hinc : includedOf (changedFilesOf env args.targetBranch) exc = [] :=
    includedOf_eq_nil _ _ hall
  rw [strictify_of_run env args exc tscOut hexc hch htsc, hinc]
  refine ⟨rfl, ?_, ?_⟩
  · intro f b hmem
    simp at hmem
  · simp [sumCountFor]

/-- Witness for the amended C10 at the concrete run whose one changed file is
excluded and whose compiler exits normally. -/
theorem c10_witness : (strictify envOk argsA).result = some ⟨true, 0⟩ :=
  (c10_all_excluded_still_compiles envOk argsA ["app.ts"] [] (by decide) (by decide)
    (by decide) rfl).2.2

end TsStrictify
